import Mathlib

/-!
Verification development for the AMI QC reconciliation engine
(`src/tasks/ami/ami_qc/ami_qc_alliant.py`, class `QualityAlliant`).

The Python code is a sequence of dataframe transformations; we embed the
relevant parts shallowly:

* dataframes are Lean lists of structure values; Spark `filter` / `join` /
  `agg(sum)` become `List.filter`, an explicit nested-loop join, and
  `List.sum` (Spark's `sum` skips nulls, so nullable columns are summed via
  `Option.getD 0`);
* Python big integers are `Int` / `Nat` (arbitrary precision, no wrap);
* nullable columns are `Option` values; Spark's null-propagating `!=` on two
  columns yields false (hence flag 0) when either side is null;
* `hashlib.md5` (an external stdlib collaborator) is modelled by a full
  executable MD5 over `Nat` bytes, and `int(hexdigest, 16)` by the
  big-endian byte fold of the digest;
* exceptions are `Except String`; the external persistence collaborator is a
  parameter returning `Except`.
-/

namespace AmiQcAlliant

/-! ## MD5 model (Python `hashlib.md5`)

A faithful executable MD5 (RFC 1321) over lists of byte values (`Nat < 256`),
with 32-bit arithmetic done as `Nat` modulo `2 ^ 32`. -/

/-- Modulus for 32-bit words. -/
def m32 : Nat := 4294967296

/-- Addition modulo `2 ^ 32`. -/
def add32 (x y : Nat) : Nat := (x + y) % m32

/-- Left rotation of a 32-bit word. -/
def rotl32 (x n : Nat) : Nat := (((x % m32) * 2 ^ n) % m32) + ((x % m32) / 2 ^ (32 - n))

/-- Bitwise complement of a 32-bit word. -/
def not32 (x : Nat) : Nat := 4294967295 ^^^ (x % m32)

/-- MD5 round function F. -/
def md5F (b c d : Nat) : Nat := (b &&& c) ||| (not32 b &&& d)

/-- MD5 round function G. -/
def md5G (b c d : Nat) : Nat := (d &&& b) ||| (not32 d &&& c)

/-- MD5 round function H. -/
def md5H (b c d : Nat) : Nat := b ^^^ c ^^^ d

/-- MD5 round function I. -/
def md5I (b c d : Nat) : Nat := c ^^^ (b ||| not32 d)

/-- MD5 sine-derived constant table. -/
def md5K : List Nat :=
  [0xd76aa478, 0xe8c7b756, 0x242070db, 0xc1bdceee, 0xf57c0faf, 0x4787c62a, 0xa8304613, 0xfd469501,
   0x698098d8, 0x8b44f7af, 0xffff5bb1, 0x895cd7be, 0x6b901122, 0xfd987193, 0xa679438e, 0x49b40821,
   0xf61e2562, 0xc040b340, 0x265e5a51, 0xe9b6c7aa, 0xd62f105d, 0x02441453, 0xd8a1e681, 0xe7d3fbc8,
   0x21e1cde6, 0xc33707d6, 0xf4d50d87, 0x455a14ed, 0xa9e3e905, 0xfcefa3f8, 0x676f02d9, 0x8d2a4c8a,
   0xfffa3942, 0x8771f681, 0x6d9d6122, 0xfde5380c, 0xa4beea44, 0x4bdecfa9, 0xf6bb4b60, 0xbebfbc70,
   0x289b7ec6, 0xeaa127fa, 0xd4ef3085, 0x04881d05, 0xd9d4d039, 0xe6db99e5, 0x1fa27cf8, 0xc4ac5665,
   0xf4292244, 0x432aff97, 0xab9423a7, 0xfc93a039, 0x655b59c3, 0x8f0ccc92, 0xffeff47d, 0x85845dd1,
   0x6fa87e4f, 0xfe2ce6e0, 0xa3014314, 0x4e0811a1, 0xf7537e82, 0xbd3af235, 0x2ad7d2bb, 0xeb86d391]

/-- MD5 per-round left-rotation amounts. -/
def md5S : List Nat :=
  [7, 12, 17, 22, 7, 12, 17, 22, 7, 12, 17, 22, 7, 12, 17, 22,
   5, 9, 14, 20, 5, 9, 14, 20, 5, 9, 14, 20, 5, 9, 14, 20,
   4, 11, 16, 23, 4, 11, 16, 23, 4, 11, 16, 23, 4, 11, 16, 23,
   6, 10, 15, 21, 6, 10, 15, 21, 6, 10, 15, 21, 6, 10, 15, 21]

/-- Message-word index used in MD5 round `i`. -/
def md5gIndex (i : Nat) : Nat :=
  if i < 16 then i
  else if i < 32 then (5 * i + 1) % 16
  else if i < 48 then (3 * i + 5) % 16
  else (7 * i) % 16

/-- Round-dependent mixing value in MD5 round `i`. -/
def md5FVal (i b c d : Nat) : Nat :=
  if i < 16 then md5F b c d
  else if i < 32 then md5G b c d
  else if i < 48 then md5H b c d
  else md5I b c d

/-- One MD5 round on the state `(a, b, c, d)`. -/
def md5Round (M : List Nat) (st : Nat × Nat × Nat × Nat) (i : Nat) : Nat × Nat × Nat × Nat :=
  let a := st.1
  let b := st.2.1
  let c := st.2.2.1
  let d := st.2.2.2
  let f := add32 (add32 (md5FVal i b c d) a) (md5K.getD i 0 + M.getD (md5gIndex i) 0)
  (d, add32 b (rotl32 f (md5S.getD i 0)), b, c)

/-- Decode a 64-byte chunk into sixteen little-endian 32-bit words. -/
def md5Words (chunk : List Nat) : List Nat :=
  (List.range 16).map (fun j =>
    chunk.getD (4 * j) 0 + 256 * chunk.getD (4 * j + 1) 0 +
      65536 * chunk.getD (4 * j + 2) 0 + 16777216 * chunk.getD (4 * j + 3) 0)

/-- Process one 64-byte chunk, updating the running hash state. -/
def md5Chunk (hs : Nat × Nat × Nat × Nat) (chunk : List Nat) : Nat × Nat × Nat × Nat :=
  let M := md5Words chunk
  let r := (List.range 64).foldl (md5Round M) hs
  (add32 hs.1 r.1, add32 hs.2.1 r.2.1, add32 hs.2.2.1 r.2.2.1, add32 hs.2.2.2 r.2.2.2)

/-- MD5 padding: append `0x80`, zero bytes up to 56 mod 64, then the 64-bit
little-endian bit length. -/
def md5Pad (msg : List Nat) : List Nat :=
  let bitLen := msg.length * 8
  let zeros := (119 - msg.length % 64) % 64
  msg ++ [128] ++ List.replicate zeros 0 ++
    (List.range 8).map (fun i => bitLen / 2 ^ (8 * i) % 256)

/-- Split a byte list into 64-byte chunks. -/
def chunks64 (l : List Nat) : List (List Nat) :=
  if h : l = [] then []
  else l.take 64 :: chunks64 (l.drop 64)
termination_by l.length
decreasing_by
  simp only [List.length_drop]
  exact Nat.sub_lt (List.length_pos.mpr h) (by omega)

/-- MD5 digest of a byte list, as the list of sixteen digest bytes. -/
def md5Digest (msg : List Nat) : List Nat :=
  let r := (chunks64 (md5Pad msg)).foldl md5Chunk
    (0x67452301, 0xefcdab89, 0x98badcfe, 0x10325476)
  [r.1, r.2.1, r.2.2.1, r.2.2.2].flatMap (fun h => (List.range 4).map (fun i => h / 2 ^ (8 * i) % 256))

/-- Model of `int(hashlib.md5(bytes).hexdigest(), 16)`: the digest bytes read
as one big-endian integer, which is exactly the integer value of the 32-char
hex digest string. -/
def md5Int (msg : List Nat) : Nat :=
  (md5Digest msg).foldl (fun acc b => acc * 256 + b) 0

/-- UTF-8 encoding of one character (model of Python `str.encode('utf-8')`). -/
def utf8Char (c : Char) : List Nat :=
  let n := c.toNat
  if n < 128 then [n]
  else if n < 2048 then [192 + n / 64, 128 + n % 64]
  else if n < 65536 then [224 + n / 4096, 128 + n / 64 % 64, 128 + n % 64]
  else [240 + n / 262144, 128 + n / 4096 % 64, 128 + n / 64 % 64, 128 + n % 64]

/-- UTF-8 bytes of a string. -/
def strBytes (s : String) : List Nat := s.data.flatMap utf8Char

/-! ## Checksum scalar (decrypt step, lines 1498-1510)

`QualityAlliant.decrypt` collects the checksum column, sorts it in place,
joins it to one string, UTF-8-encodes, MD5-digests and reads the hex digest
as an integer. -/

/-- Model of Python `list.sort()` on strings: sorting by the lexicographic
order (the sorted result of a stable sort under a linear order is the unique
sorted permutation, so any sort models `list.sort`). -/
def checksum_list_sorted (l : List String) : List String :=
  List.insertionSort (fun a b => a ≤ b) l

/-- Model of `''.join(checksum_list)` after sorting (lines 1499-1500). -/
def checksum_string (l : List String) : String :=
  String.join (checksum_list_sorted l)

/-- Model of `int(hashlib.md5(checksum_string).hexdigest(), 16)`
(lines 1509-1510). -/
def checksum_scalar (l : List String) : Nat :=
  md5Int (strBytes (checksum_string l))

/-! ## File-name cleaning (`QualityAlliant.clean_file_name`, lines 141-157)

The Python code, for non-missing non-empty input, takes
`full_name.split('/')[-1]` and, when `fname.find('.') > 0`, truncates at that
index.  We model strings as `List Char`; the Python call sites always use the
default sentinel `'UNKNOWN'`. -/

/-- Model of Python `str.split('/')`: splits on every `'/'`, keeping empty
components, and yields `[[]]` on the empty string. -/
def splitSlash : List Char → List (List Char)
  | [] => [[]]
  | c :: cs =>
    if c = '/' then [] :: splitSlash cs
    else
      match splitSlash cs with
      | [] => [[c]]
      | h :: t => (c :: h) :: t

/-- Model of Python `str.find('.')`: index of the first `'.'`, `none` for the
Python return value `-1`. -/
def findDot : List Char → Option Nat
  | [] => none
  | c :: cs => if c = '.' then some 0 else (findDot cs).map (fun i => i + 1)

/-- Model of `QualityAlliant.clean_file_name` (lines 141-157): `None` or empty
input maps to the default `'UNKNOWN'`; otherwise take the substring after the
last `'/'` and, when the first `'.'` sits at a positive index (`dotidx > 0`),
keep only the prefix before it. -/
def clean_file_name (full_name : Option (List Char)) : List Char :=
  match full_name with
  | none => "UNKNOWN".data
  | some l =>
    if l.length < 1 then "UNKNOWN".data
    else
      let fname := (splitSlash l).getLastD []
      match findDot fname with
      | some i => if 0 < i then fname.take i else fname
      | none => fname

/-- Reference definition following the specification's wording of the cleaning
rule: take the substring after the last `'/'` and truncate it at the first
`'.'` (unconditionally, so a leading dot truncates to the empty prefix);
empty or missing input maps to `'UNKNOWN'`. -/
def clean_file_name_spec (full_name : Option (List Char)) : List Char :=
  match full_name with
  | none => "UNKNOWN".data
  | some l =>
    if l = [] then "UNKNOWN".data
    else
      let fname := (l.reverse.takeWhile (fun c => c ≠ '/')).reverse
      fname.takeWhile (fun c => c ≠ '.')

/-- Amended reference definition: as `clean_file_name_spec`, except that the
truncation at the first `'.'` happens only when that dot is not the first
character of the component (matching the code's `dotidx > 0` guard). -/
def clean_file_name_spec_amended (full_name : Option (List Char)) : List Char :=
  match full_name with
  | none => "UNKNOWN".data
  | some l =>
    if l = [] then "UNKNOWN".data
    else
      match (l.reverse.takeWhile (fun c => c ≠ '/')).reverse with
      | [] => []
      | c :: cs => if c = '.' then c :: cs else c :: cs.takeWhile (fun x => x ≠ '.')

/-! ## Decrypt-step extractor and joiner rows

`get_manifest` (lines 658-685) yields `manifest_filename` (non-null: it is the
output of the cleaning UDF), `manifest_checksum` and `manifest_linecount`
(both nullable).  `get_decrypted_audit` (lines 706-764) yields
`audit_filename` (non-null: null filenames do not survive the `like` filter),
`audit_checksum` and `audit_linecount` (both nullable). -/

/-- One row of the `get_manifest` output. -/
structure MRow where
  manifest_filename : String
  manifest_checksum : Option String
  manifest_linecount : Option Int
deriving DecidableEq

/-- One row of the `get_decrypted_audit` output. -/
structure ARow where
  audit_filename : String
  audit_checksum : Option String
  audit_linecount : Option Int
deriving DecidableEq

/-- One row of the `join_decrypt_manifest` output (lines 837-873).  The
linecount columns are `Int` because `fillna(0, subset=[...])` fills the
integer columns; the checksum columns stay `Option` because Spark's `fillna`
with an integer value ignores string columns. -/
structure DJoinRow where
  manifest_filename : String
  manifest_checksum : Option String
  manifest_linecount : Int
  audit_filename : Option String
  audit_checksum : Option String
  audit_linecount : Int
  file_mismatch : Int
  linecount_mismatch : Int
  checksum_mismatch : Int
deriving DecidableEq

/-- Build one joined row from a manifest row and its (optional) audit match,
mirroring lines 857-873: `fillna(0)` coalesces the two integer linecounts (a
missing audit side contributes null, hence 0) but leaves the string checksum
columns null; `file_mismatch` tests `audit_filename IS NULL`;
`linecount_mismatch` compares the two non-null filled linecounts;
`checksum_mismatch` uses Spark's null-propagating `!=`, which yields the
`otherwise` value 0 when either checksum is null. -/
def mkJoinedRow (m : MRow) (oa : Option ARow) : DJoinRow :=
  let mlc := m.manifest_linecount.getD 0
  let alc := (oa.bind (fun a => a.audit_linecount)).getD 0
  let afn := oa.map (fun a => a.audit_filename)
  let achk := oa.bind (fun a => a.audit_checksum)
  { manifest_filename := m.manifest_filename
    manifest_checksum := m.manifest_checksum
    manifest_linecount := mlc
    audit_filename := afn
    audit_checksum := achk
    audit_linecount := alc
    file_mismatch := if afn = none then 1 else 0
    linecount_mismatch := if mlc ≠ alc then 1 else 0
    checksum_mismatch :=
      match m.manifest_checksum, achk with
      | some mc, some ac => if mc ≠ ac then 1 else 0
      | _, _ => 0 }

/-- The left-outer equi-join underlying `join_decrypt_manifest`: every
manifest row is kept; a row with no audit match gets a null audit side, a row
with several matches yields one output row per match. -/
def join_decrypt_manifest_rows (dfM : List MRow) (dfA : List ARow) : List DJoinRow :=
  dfM.flatMap (fun m =>
    match dfA.filter (fun a => a.audit_filename == m.manifest_filename) with
    | [] => [mkJoinedRow m none]
    | hits => hits.map (fun a => mkJoinedRow m (some a)))

instance : DecidableRel (fun r₁ r₂ : DJoinRow => r₁.manifest_filename ≤ r₂.manifest_filename) :=
  fun a b => inferInstanceAs (Decidable (a.manifest_filename ≤ b.manifest_filename))

/-- Model of `QualityAlliant.join_decrypt_manifest` (lines 837-873): the
left-outer join with mismatch flags, ordered by `manifest_filename`. -/
def join_decrypt_manifest (dfM : List MRow) (dfA : List ARow) : List DJoinRow :=
  List.insertionSort (fun r₁ r₂ => r₁.manifest_filename ≤ r₂.manifest_filename)
    (join_decrypt_manifest_rows dfM dfA)

/-- Reading of the specification's checksum clause: flag 1 exactly when the
two checksum values differ after null-coalescing a missing value to the fill
value 0. -/
def checksum_mismatch_coalesced_spec (mc ac : Option String) : Int :=
  if mc.getD "0" ≠ ac.getD "0" then 1 else 0

/-- Model of `df_m.agg({"manifest_linecount": "sum"})` (line 1507); Spark's
`sum` skips nulls, so each nullable value contributes `getD 0`. -/
def sum_manifest_linecount (dfM : List MRow) : Int :=
  (dfM.map (fun m => m.manifest_linecount.getD 0)).sum

/-- Model of `df_a.agg({"audit_linecount": "sum"})` (line 1508). -/
def sum_audit_linecount (dfA : List ARow) : Int :=
  (dfA.map (fun a => a.audit_linecount.getD 0)).sum

/-- The audit row matched to a manifest row by the join key (meaningful when
the manifest filename occurs exactly once on the audit side). -/
def audit_match (dfA : List ARow) (m : MRow) : ARow :=
  (dfA.filter (fun a => a.audit_filename == m.manifest_filename)).headD ⟨"", none, none⟩

/-! ## Metric registry (`QC_META`, lines 59-136) and metric evaluator -/

/-- One registered metric of `QC_META`, as written in the source: the filter
is kept as the literal SQL string. -/
structure MetricMetaRaw where
  name : String
  left_data : String
  right_data : String
  error_message : String
  error_df_filter_string : String
deriving DecidableEq

/-- The decrypt-step metric registry `QC_META[1]['metrics']` (lines 60-85). -/
def QC_META_decrypt_metrics : List (Nat × MetricMetaRaw) :=
  [(1, { name := "file count"
         left_data := "manifest file count"
         right_data := "audit file count"
         error_message := "audit file count does not match manifest"
         error_df_filter_string := "file_mismatch = 1" }),
   (2, { name := "line count"
         left_data := "manifest line count"
         right_data := "audit line count"
         error_message := "audit line count does not match manifest"
         error_df_filter_string := "linecount_mismatch = 1" }),
   (3, { name := "checksums"
         left_data := "manifest checksums"
         right_data := "audit checksums"
         error_message := "checksum of audit checksum list does not match manifest"
         error_df_filter_string := "checksum_mismatch = 1" })]

/-- Semantics of the three decrypt-step filter strings over a joined row
(the interpretation Spark's `DataFrame.filter` gives them). -/
def decrypt_filter_sem (s : String) : DJoinRow → Bool := fun r =>
  if s = "file_mismatch = 1" then r.file_mismatch == 1
  else if s = "linecount_mismatch = 1" then r.linecount_mismatch == 1
  else if s = "checksum_mismatch = 1" then r.checksum_mismatch == 1
  else false

/-- A registered metric with its filter string interpreted as a predicate on
the step's joined rows. -/
structure MetricMeta (α : Type) where
  name : String
  left_data : String
  right_data : String
  error_message : String
  error_df_filter : α → Bool

/-- The decrypt-step registry with interpreted filters. -/
def decrypt_meta (k : Nat) : Option (MetricMeta DJoinRow) :=
  (QC_META_decrypt_metrics.lookup k).map (fun m =>
    { name := m.name
      left_data := m.left_data
      right_data := m.right_data
      error_message := m.error_message
      error_df_filter := decrypt_filter_sem m.error_df_filter_string })

/-- The registered decrypt metric 1 (file count). -/
def decryptMeta1 : MetricMeta DJoinRow :=
  (decrypt_meta 1).getD { name := "", left_data := "", right_data := "", error_message := "", error_df_filter := fun _ => false }

/-- The registered decrypt metric 2 (line count). -/
def decryptMeta2 : MetricMeta DJoinRow :=
  (decrypt_meta 2).getD { name := "", left_data := "", right_data := "", error_message := "", error_df_filter := fun _ => false }

/-- The error rows the registered decrypt metric 2 filter selects from the
joined dataframe. -/
def decrypt_metric2_error_rows (dfM : List MRow) (dfA : List ARow) : List DJoinRow :=
  (join_decrypt_manifest dfM dfA).filter decryptMeta2.error_df_filter

/-- Model of `QualityAlliant.update_error_dataframe` (lines 177-194): filter
the step's joined dataframe by the metric's registered predicate and stamp
every surviving row with the metric's registered error message
(`withColumn('error_message', lit(error_message))`). -/
def update_error_dataframe (meta : MetricMeta α) (df_error : List α) : List (α × String) :=
  (df_error.filter meta.error_df_filter).map (fun r => (r, meta.error_message))

/-- Model of the save-location ladder of `QualityAlliant.save_error_rows`
(lines 304-335): the step number selects the stage directory, unknown steps
yield no location. -/
def save_error_rows_path (s3_base : String) (step_number metric_number : Nat) : Option String :=
  if step_number = 1 then
    some (s3_base ++ "/decrypt/metric_number=" ++ toString metric_number ++ "/errors.parquet")
  else if step_number = 2 then
    some (s3_base ++ "/channel_ingest/metric_number=" ++ toString metric_number ++ "/errors.parquet")
  else if step_number = 3 then
    some (s3_base ++ "/extract_common_ami/metric_number=" ++ toString metric_number ++ "/errors.parquet")
  else if step_number = 4 then
    some (s3_base ++ "/load_common_ami/metric_number=" ++ toString metric_number ++ "/errors.parquet")
  else if step_number = 5 then
    some (s3_base ++ "/raw_to_mdis_hour/metric_number=" ++ toString metric_number ++ "/errors.parquet")
  else if step_number = 6 then
    some (s3_base ++ "/raw_to_mdis_day/metric_number=" ++ toString metric_number ++ "/errors.parquet")
  else none

/-- The output dictionary built by `qc_individual_metric` (lines 279-291);
`qc_timestamp` (wall-clock UTC time) is outside the embedding.  The
`qc_error` component is present exactly when the built `error_message` is
non-empty, and then holds the message and the save location returned by
`save_error_rows`. -/
structure MetricResult where
  metric_name : String
  left_data_name : String
  left_data_value : Int
  right_data_name : String
  right_data_value : Int
  left_right_delta : Int
  qc_status : Nat
  qc_error : Option (String × Option String)
deriving DecidableEq

/-- Model of `QualityAlliant.qc_individual_metric` (lines 244-291).  The
first component is the metric's output record; the second is the error-row
set handed to `save_error_rows` — `some rows` exactly when the error branch
runs (`left_data != right_data`), `none` when the metric passes. -/
def qc_individual_metric (meta : MetricMeta α) (s3_base : String)
    (step_number metric_number : Nat) (left_data right_data : Int)
    (df_error : List α) : MetricResult × Option (List (α × String)) :=
  let l_r_delta := left_data - right_data
  if left_data = right_data then
    ({ metric_name := meta.name
       left_data_name := meta.left_data
       left_data_value := left_data
       right_data_name := meta.right_data
       right_data_value := right_data
       left_right_delta := l_r_delta
       qc_status := 1
       qc_error := none }, none)
  else
    let rows := update_error_dataframe meta df_error
    let error_save_to_path := save_error_rows_path s3_base step_number metric_number
    ({ metric_name := meta.name
       left_data_name := meta.left_data
       left_data_value := left_data
       right_data_name := meta.right_data
       right_data_value := right_data
       left_right_delta := l_r_delta
       qc_status := 0
       qc_error :=
         if meta.error_message = "" then none
         else some (meta.error_message, error_save_to_path) }, some rows)

/-! ## Fault propagation (`save_error_rows` raising, and the run loop)

The persistence collaborator (S3 write, lines 340-343) may raise; we model it
as a parameter `save` returning `Except String String` (the saved-to path on
success).  `qc_individual_metric` has no handler around
`self.save_error_rows(...)` (line 277), `qc_individual_step` has none around
its metric loop (lines 219-224), and `run` has none around the step calls
(lines 1834-1837). -/

/-- Model of `qc_individual_metric` with a fallible persistence collaborator:
on a failing metric the error rows are handed to `save`, and a raise in
`save` propagates (there is no `try` in lines 264-291). -/
def qc_individual_metric_exc (save : List (α × String) → Except String String)
    (meta : MetricMeta α) (s3_base : String) (step_number metric_number : Nat)
    (left_data right_data : Int) (df_error : List α) : Except String MetricResult :=
  match (qc_individual_metric meta s3_base step_number metric_number left_data right_data df_error).2 with
  | none => Except.ok (qc_individual_metric meta s3_base step_number metric_number left_data right_data df_error).1
  | some rows =>
    match save rows with
    | Except.error e => Except.error e
    | Except.ok _ => Except.ok (qc_individual_metric meta s3_base step_number metric_number left_data right_data df_error).1

/-- One metric of a step as driven by `qc_individual_step` (lines 219-224):
its number, its registry entry, and the two aggregate scalars from
`qc_values`. -/
structure MetricCall (α : Type) where
  metric_number : Nat
  meta : MetricMeta α
  left_data : Int
  right_data : Int

/-- The metric loop of `qc_individual_step` (lines 219-224): metrics run in
order; the first raise aborts the loop and the step. -/
def qc_metrics_exc (save : List (α × String) → Except String String) (s3_base : String)
    (step_number : Nat) (df_error : List α) :
    List (MetricCall α) → Except String (List (Nat × MetricResult))
  | [] => Except.ok []
  | mc :: rest =>
    match qc_individual_metric_exc save mc.meta s3_base step_number mc.metric_number
        mc.left_data mc.right_data df_error with
    | Except.error e => Except.error e
    | Except.ok res =>
      match qc_metrics_exc save s3_base step_number df_error rest with
      | Except.error e => Except.error e
      | Except.ok out => Except.ok ((mc.metric_number, res) :: out)

/-- One row of the step output (lines 226-242).  The `metrics` payload is
kept structured; its JSON serialization (`json.dumps`) is an external
collaborator. -/
structure StepOutput where
  id : String
  name : String
  execution_date : String
  metrics : List (Nat × MetricResult)
deriving DecidableEq

/-- Model of `QualityAlliant.qc_individual_step` (lines 196-242) with a
fallible persistence collaborator: the step record is built only after every
metric ran; a raise inside the metric loop discards the partial
`metric_output` and propagates. -/
def qc_individual_step_exc (save : List (α × String) → Except String String)
    (s3_base : String) (step_number : Nat) (step_name execution_date : String)
    (metric_calls : List (MetricCall α)) (df_error : List α) : Except String StepOutput :=
  match qc_metrics_exc save s3_base step_number df_error metric_calls with
  | Except.error e => Except.error e
  | Except.ok out =>
    Except.ok { id := toString step_number, name := step_name
                execution_date := execution_date, metrics := out }

instance : DecidableRel (fun r₁ r₂ : StepOutput => r₁.id ≤ r₂.id) :=
  fun a b => inferInstanceAs (Decidable (a.id ≤ b.id))

/-- Model of `QualityAlliant.union_qc_output` (lines 1789-1814): an empty
step list yields the empty dataframe over the fixed schema; otherwise the
union of all step records ordered by `id`. -/
def union_qc_output (step_list : List StepOutput) : List StepOutput :=
  if step_list.isEmpty then []
  else List.insertionSort (fun r₁ r₂ => r₁.id ≤ r₂.id) step_list

/-- One step-function epilogue (lines 1559, 1658, 1736, 1786): the computed
step record is appended to the module-level global
`COMPLETED_QC_STEP_LIST`. -/
def completed_qc_step_append (output : StepOutput) (completed_qc_step_list : List StepOutput) :
    List StepOutput :=
  completed_qc_step_list ++ [output]

/-- Model of `QualityAlliant.run` (lines 1816-1845): the four step functions
each append one record to the global list, then `union_qc_output` is applied
to the GLOBAL list (line 1840), not to a per-run list.  Returns the final
report and the global list after the run. -/
def run_qc (r₁ r₂ r₃ r₄ : StepOutput) (completed_qc_step_list : List StepOutput) :
    List StepOutput × List StepOutput :=
  let c₁ := completed_qc_step_append r₁ completed_qc_step_list
  let c₂ := completed_qc_step_append r₂ c₁
  let c₃ := completed_qc_step_append r₃ c₂
  let c₄ := completed_qc_step_append r₄ c₃
  (union_qc_output c₄, c₄)

/-- Model of the run loop with fallible steps: each step either appends its
record to the global list or raises, aborting the run before
`union_qc_output` (lines 1834-1843); on a raise no final report exists.
Returns the global list as left behind plus the report or the fault. -/
def run_qc_exc (completed_qc_step_list : List StepOutput) :
    List (Except String StepOutput) → List StepOutput × Except String (List StepOutput)
  | [] => (completed_qc_step_list, Except.ok (union_qc_output completed_qc_step_list))
  | step :: rest =>
    match step with
    | Except.ok r => run_qc_exc (completed_qc_step_list ++ [r]) rest
    | Except.error e => (completed_qc_step_list, Except.error e)

/-- A persistence collaborator that always raises (used to exhibit the
propagation behaviour at a concrete input). -/
def failing_save : List (DJoinRow × String) → Except String String :=
  fun _ => Except.error "persist failed"

/-! ## Final-summary save fallback (`get_and_save_ami_summary`, lines 610-622) -/

/-- Where the `ami_summary` temp view ends up registered: over the re-read
saved output, or over the in-memory persisted dataframe. -/
inductive AmiSummaryView (ρ : Type) where
  | fromSavedOutput (data : List ρ)
  | fromPersistedDataframe (data : List ρ)
deriving DecidableEq

/-- Outcome of `get_and_save_ami_summary`: the registered view and the
logged error, if any. -/
structure AmiSummaryOutcome (ρ : Type) where
  view : AmiSummaryView ρ
  logged_error : Option String
deriving DecidableEq

/-- Model of lines 610-622 of `get_and_save_ami_summary`: `save_output` runs
under `try`; on success the view is registered over the re-read saved
location (`spark.read.parquet(...)`, whose contents are the parameter
`read_saved`), on failure the error is logged and the view is registered over
the in-memory persisted dataframe `df`.  The function is total: the caught
exception never escapes. -/
def get_and_save_ami_summary (save_output : List ρ → Except String Unit)
    (read_saved : List ρ) (df : List ρ) : AmiSummaryOutcome ρ :=
  match save_output df with
  | Except.ok _ => { view := AmiSummaryView.fromSavedOutput read_saved, logged_error := none }
  | Except.error e => { view := AmiSummaryView.fromPersistedDataframe df, logged_error := some e }

/-! ## Helper lemmas -/

/-- The union keeps exactly the rows of the accumulated step list (ordering
by `id` only reorders them). -/
theorem union_qc_output_length (step_list : List StepOutput) :
    (union_qc_output step_list).length = step_list.length := by
  unfold union_qc_output
  by_cases h : step_list.isEmpty
  · simp [h, List.isEmpty_iff.mp h]
  · simp [h, (List.perm_insertionSort _ step_list).length_eq]

/-- Sorting is a congruence over permutations: two lists that are equal as
multisets have the same sorted form. -/
theorem checksum_sorted_eq_of_perm {l₁ l₂ : List String} (h : l₁.Perm l₂) :
    checksum_list_sorted l₁ = checksum_list_sorted l₂ := by
  have hs₁ : List.Sorted (fun a b : String => a ≤ b) (checksum_list_sorted l₁) :=
    List.sorted_insertionSort _ l₁
  have hs₂ : List.Sorted (fun a b : String => a ≤ b) (checksum_list_sorted l₂) :=
    List.sorted_insertionSort _ l₂
  have hp : (checksum_list_sorted l₁).Perm (checksum_list_sorted l₂) :=
    (List.perm_insertionSort _ l₁).trans (h.trans (List.perm_insertionSort _ l₂).symm)
  exact List.eq_of_perm_of_sorted hp hs₁ hs₂

/-- Per-row characterisation of the three mismatch flags of a joined row:
`file_mismatch` marks the absence of an audit match, `linecount_mismatch`
compares the 0-coalesced integer linecounts, and `checksum_mismatch` is 1
exactly when BOTH checksums are present and differ (the integer fill value
does not apply to the string columns, and Spark's `!=` on a null yields the
`otherwise` branch). -/
theorem mkJoinedRow_flags (m : MRow) (oa : Option ARow) :
    ((mkJoinedRow m oa).file_mismatch = 1 ↔ oa = none)
    ∧ ((mkJoinedRow m oa).linecount_mismatch = 1 ↔
        m.manifest_linecount.getD 0 ≠ (oa.bind (fun a => a.audit_linecount)).getD 0)
    ∧ ((mkJoinedRow m oa).checksum_mismatch = 1 ↔
        ∃ mc ac, m.manifest_checksum = some mc
          ∧ oa.bind (fun a => a.audit_checksum) = some ac ∧ mc ≠ ac) := by
  refine ⟨?_, ?_, ?_⟩
  · cases oa <;> simp [mkJoinedRow]
  · by_cases h : m.manifest_linecount.getD 0 = (oa.bind (fun a => a.audit_linecount)).getD 0 <;>
      simp [mkJoinedRow, h]
  · cases hmc : m.manifest_checksum with
    | none => cases oa <;> simp [mkJoinedRow, hmc]
    | some mc =>
      cases hac : oa.bind (fun a => a.audit_checksum) with
      | none => simp [mkJoinedRow, hmc, hac]
      | some ac =>
        by_cases h : mc = ac <;> simp [mkJoinedRow, hmc, hac, h]

/-! ## Claim theorems -/

/-- Claim C1: for every metric evaluation where the left scalar differs from
the right scalar, the result has status 0, its delta equals left minus right
exactly, and the set of error rows handed to persistence is exactly the rows
of the step's joined dataframe satisfying the metric's registered filter
predicate, each stamped with the metric's registered error message. -/
theorem qc_metric_fail_status_delta_rows {α : Type} (meta : MetricMeta α)
    (s3_base : String) (sn mn : Nat) (l r : Int) (df : List α) (h : l ≠ r) :
    (qc_individual_metric meta s3_base sn mn l r df).1.qc_status = 0
    ∧ (qc_individual_metric meta s3_base sn mn l r df).1.left_right_delta = l - r
    ∧ (qc_individual_metric meta s3_base sn mn l r df).2
        = some ((df.filter meta.error_df_filter).map (fun row => (row, meta.error_message))) := by
  simp [qc_individual_metric, update_error_dataframe, h]

/-- Witness for C1: the registered decrypt line-count metric at scalars 3 and
4 over a two-row joined dataframe. -/
theorem qc_metric_fail_status_delta_rows_witness :
    ((3 : Int) ≠ 4)
    ∧ ((qc_individual_metric decryptMeta2 "s3://qc" 1 2 3 4
          [mkJoinedRow ⟨"f1", some "x", some 10⟩ (some ⟨"f1", some "x", some 9⟩),
           mkJoinedRow ⟨"f2", some "y", some 7⟩ (some ⟨"f2", some "y", some 7⟩)]).1.qc_status = 0
       ∧ (qc_individual_metric decryptMeta2 "s3://qc" 1 2 3 4
          [mkJoinedRow ⟨"f1", some "x", some 10⟩ (some ⟨"f1", some "x", some 9⟩),
           mkJoinedRow ⟨"f2", some "y", some 7⟩ (some ⟨"f2", some "y", some 7⟩)]).1.left_right_delta = 3 - 4
       ∧ (qc_individual_metric decryptMeta2 "s3://qc" 1 2 3 4
          [mkJoinedRow ⟨"f1", some "x", some 10⟩ (some ⟨"f1", some "x", some 9⟩),
           mkJoinedRow ⟨"f2", some "y", some 7⟩ (some ⟨"f2", some "y", some 7⟩)]).2
          = some (([mkJoinedRow ⟨"f1", some "x", some 10⟩ (some ⟨"f1", some "x", some 9⟩),
              mkJoinedRow ⟨"f2", some "y", some 7⟩ (some ⟨"f2", some "y", some 7⟩)].filter
                decryptMeta2.error_df_filter).map (fun row => (row, decryptMeta2.error_message)))) :=
  ⟨by decide, qc_metric_fail_status_delta_rows decryptMeta2 "s3://qc" 1 2 3 4 _ (by decide)⟩

/-- Claim C2: for every metric evaluation, status is 1 iff the two scalars
are exactly equal, error-row persistence is invoked iff they differ, and on
equality the result carries no error message or error path. -/
theorem qc_metric_status_iff_eq {α : Type} (meta : MetricMeta α)
    (s3_base : String) (sn mn : Nat) (l r : Int) (df : List α) :
    ((qc_individual_metric meta s3_base sn mn l r df).1.qc_status = 1 ↔ l = r)
    ∧ ((qc_individual_metric meta s3_base sn mn l r df).2.isSome = true ↔ l ≠ r)
    ∧ (l = r → (qc_individual_metric meta s3_base sn mn l r df).1.qc_error = none) := by
  by_cases h : l = r <;> simp [qc_individual_metric, h]

/-- Witness for C2 at equal scalars (pass: no persistence, no error payload)
using the registered decrypt file-count metric. -/
theorem qc_metric_status_iff_eq_witness :
    ((qc_individual_metric decryptMeta1 "s3://qc" 1 1 5 5 ([] : List DJoinRow)).1.qc_status = 1 ↔ (5 : Int) = 5)
    ∧ ((qc_individual_metric decryptMeta1 "s3://qc" 1 1 5 5 ([] : List DJoinRow)).2.isSome = true ↔ (5 : Int) ≠ 5)
    ∧ ((5 : Int) = 5 → (qc_individual_metric decryptMeta1 "s3://qc" 1 1 5 5 ([] : List DJoinRow)).1.qc_error = none) :=
  qc_metric_status_iff_eq decryptMeta1 "s3://qc" 1 1 5 5 []

/-- Claim C3: the decrypt-step checksum comparison is permutation-invariant:
multiset-equal checksum lists yield equal sorted-concatenated-MD5 integers,
so the metric-3 comparison outcome is unchanged by reordering either input
list. -/
theorem checksum_scalar_perm_invariant :
    (∀ l₁ l₂ : List String, l₁.Perm l₂ → checksum_scalar l₁ = checksum_scalar l₂)
    ∧ ∀ m₁ m₂ a₁ a₂ : List String, m₁.Perm m₂ → a₁.Perm a₂ →
        ((checksum_scalar m₁ = checksum_scalar a₁) ↔ (checksum_scalar m₂ = checksum_scalar a₂)) := by
  constructor
  · intro l₁ l₂ h
    unfold checksum_scalar checksum_string
    rw [checksum_sorted_eq_of_perm h]
  · intro m₁ m₂ a₁ a₂ hm ha
    unfold checksum_scalar checksum_string
    rw [checksum_sorted_eq_of_perm hm, checksum_sorted_eq_of_perm ha]

/-- Witness for C3 at a concrete permutation pair. -/
theorem checksum_scalar_perm_invariant_witness :
    (["b", "a"].Perm ["a", "b"]) ∧ checksum_scalar ["b", "a"] = checksum_scalar ["a", "b"] :=
  ⟨by decide, checksum_scalar_perm_invariant.1 ["b", "a"] ["a", "b"] (by decide)⟩

/-- Claim C9: the AMI-summary save runs under a local handler; on failure
the error is logged, nothing escapes, and the `ami_summary` view is
registered over the in-memory persisted dataframe; on success it is
registered over the re-read saved output. -/
theorem ami_summary_save_fallback {ρ : Type} (save_output : List ρ → Except String Unit)
    (read_saved df : List ρ) :
    ((get_and_save_ami_summary save_output read_saved df).view
        = AmiSummaryView.fromSavedOutput read_saved ↔ (save_output df).isOk = true)
    ∧ ((get_and_save_ami_summary save_output read_saved df).view
          = AmiSummaryView.fromPersistedDataframe df
        ∨ (get_and_save_ami_summary save_output read_saved df).view
          = AmiSummaryView.fromSavedOutput read_saved)
    ∧ ((get_and_save_ami_summary save_output read_saved df).logged_error.isSome = true
        ↔ (save_output df).isOk = false)
    ∧ ((save_output df).isOk = false →
        (get_and_save_ami_summary save_output read_saved df).view
          = AmiSummaryView.fromPersistedDataframe df) := by
  cases h : save_output df <;> simp [get_and_save_ami_summary, h, Except.isOk, Except.toBool]

/-- Witness for C9 at a save collaborator that always raises. -/
theorem ami_summary_save_fallback_witness :
    ((get_and_save_ami_summary (fun _ : List Nat => Except.error "disk full") [7] [1, 2]).view
        = AmiSummaryView.fromSavedOutput [7] ↔ ((fun _ : List Nat => (Except.error "disk full" : Except String Unit)) [1, 2]).isOk = true)
    ∧ ((get_and_save_ami_summary (fun _ : List Nat => Except.error "disk full") [7] [1, 2]).view
          = AmiSummaryView.fromPersistedDataframe [1, 2]
        ∨ (get_and_save_ami_summary (fun _ : List Nat => Except.error "disk full") [7] [1, 2]).view
          = AmiSummaryView.fromSavedOutput [7])
    ∧ ((get_and_save_ami_summary (fun _ : List Nat => Except.error "disk full") [7] [1, 2]).logged_error.isSome = true
        ↔ ((fun _ : List Nat => (Except.error "disk full" : Except String Unit)) [1, 2]).isOk = false)
    ∧ (((fun _ : List Nat => (Except.error "disk full" : Except String Unit)) [1, 2]).isOk = false →
        (get_and_save_ami_summary (fun _ : List Nat => Except.error "disk full") [7] [1, 2]).view
          = AmiSummaryView.fromPersistedDataframe [1, 2]) :=
  ami_summary_save_fallback (fun _ => Except.error "disk full") [7] [1, 2]

/-- Claim C10: each step function appends exactly one record to the global
`COMPLETED_QC_STEP_LIST` and `run` unions that global list, so a second run
in the same process reports all records accumulated since process start
(eight rows after two runs), not four. -/
theorem run_unions_global_step_list (r₁ r₂ r₃ r₄ : StepOutput) (g : List StepOutput) :
    (run_qc r₁ r₂ r₃ r₄ g).2 = g ++ [r₁, r₂, r₃, r₄]
    ∧ (run_qc r₁ r₂ r₃ r₄ g).1.length = g.length + 4
    ∧ ∀ r₅ r₆ r₇ r₈ : StepOutput,
        ((run_qc r₅ r₆ r₇ r₈ (run_qc r₁ r₂ r₃ r₄ []).2).1).length = 8 := by
  refine ⟨?_, ?_, ?_⟩
  · simp [run_qc, completed_qc_step_append]
  · simp [run_qc, completed_qc_step_append, union_qc_output_length]
  · intro r₅ r₆ r₇ r₈
    simp [run_qc, completed_qc_step_append, union_qc_output_length]

/-- Counterexample for C5 as stated: a manifest row with no audit match
carries a null (not 0-coalesced) audit checksum, so the code compares
`'abc' != NULL`, which is null and falls to the `otherwise(0)` branch —
while the claim's coalesced comparison (`'abc'` against the fill value 0)
would flag 1. -/
theorem join_checksum_null_not_coalesced_cex :
    join_decrypt_manifest [⟨"f1", some "abc", some 10⟩] []
      = [mkJoinedRow ⟨"f1", some "abc", some 10⟩ none]
    ∧ (mkJoinedRow ⟨"f1", some "abc", some 10⟩ none).file_mismatch = 1
    ∧ (mkJoinedRow ⟨"f1", some "abc", some 10⟩ none).audit_checksum = none
    ∧ (mkJoinedRow ⟨"f1", some "abc", some 10⟩ none).checksum_mismatch = 0
    ∧ checksum_mismatch_coalesced_spec (some "abc") none = 1 := by
  decide

/-- Claim C5 (amended): in the decrypt-manifest join every output row arises
from a manifest row and an optional audit match; `file_mismatch = 1` exactly
when the left-outer join produced no match, `linecount_mismatch = 1` exactly
when the 0-coalesced linecounts differ, and `checksum_mismatch = 1` exactly
when both checksums are present and differ — an unmatched manifest row keeps
a null audit checksum (the integer fill value skips string columns) and gets
`checksum_mismatch = 0`. -/
theorem join_decrypt_manifest_flags (dfM : List MRow) (dfA : List ARow) (r : DJoinRow)
    (hr : r ∈ join_decrypt_manifest dfM dfA) :
    ∃ m oa, m ∈ dfM ∧ r = mkJoinedRow m oa
      ∧ (oa = none →
          dfA.filter (fun a => a.audit_filename == m.manifest_filename) = [])
      ∧ (∀ a, oa = some a → a ∈ dfA ∧ a.audit_filename = m.manifest_filename)
      ∧ (r.file_mismatch = 1 ↔ oa = none)
      ∧ (r.linecount_mismatch = 1 ↔
          m.manifest_linecount.getD 0 ≠ (oa.bind (fun a => a.audit_linecount)).getD 0)
      ∧ (r.checksum_mismatch = 1 ↔
          ∃ mc ac, m.manifest_checksum = some mc
            ∧ oa.bind (fun a => a.audit_checksum) = some ac ∧ mc ≠ ac) := by
  have hr' : r ∈ join_decrypt_manifest_rows dfM dfA :=
    (List.perm_insertionSort _ _).subset hr
  rw [join_decrypt_manifest_rows, List.mem_flatMap] at hr'
  obtain ⟨m, hm, hrm⟩ := hr'
  cases hfil : dfA.filter (fun a => a.audit_filename == m.manifest_filename) with
  | nil =>
    rw [hfil] at hrm
    simp only [List.mem_singleton] at hrm
    subst hrm
    refine ⟨m, none, hm, rfl, fun _ => hfil, ?_, ?_, ?_, ?_⟩
    · intro a ha
      exact Option.noConfusion ha
    · exact (mkJoinedRow_flags m none).1
    · exact (mkJoinedRow_flags m none).2.1
    · exact (mkJoinedRow_flags m none).2.2
  | cons a₀ rest =>
    rw [hfil] at hrm
    simp only [List.mem_map] at hrm
    obtain ⟨a, ha, hrm⟩ := hrm
    subst hrm
    have hafil : a ∈ dfA.filter (fun x => x.audit_filename == m.manifest_filename) := by
      rw [hfil]; exact ha
    have haA : a ∈ dfA := List.mem_of_mem_filter hafil
    have haeq : a.audit_filename = m.manifest_filename := by
      have := List.of_mem_filter hafil
      exact eq_of_beq this
    refine ⟨m, some a, hm, rfl, ?_, ?_, ?_, ?_, ?_⟩
    · intro hc
      exact Option.noConfusion hc
    · intro a' ha'
      cases ha'
      exact ⟨haA, haeq⟩
    · exact (mkJoinedRow_flags m (some a)).1
    · exact (mkJoinedRow_flags m (some a)).2.1
    · exact (mkJoinedRow_flags m (some a)).2.2

/-- Witness for C5 at a one-row manifest matched by a one-row audit. -/
theorem join_decrypt_manifest_flags_witness :
    (mkJoinedRow ⟨"f1", some "c1", some 10⟩ (some ⟨"f1", some "c1", some 10⟩)
        ∈ join_decrypt_manifest [⟨"f1", some "c1", some 10⟩] [⟨"f1", some "c1", some 10⟩])
    ∧ ∃ m oa, m ∈ [(⟨"f1", some "c1", some 10⟩ : MRow)]
        ∧ mkJoinedRow ⟨"f1", some "c1", some 10⟩ (some ⟨"f1", some "c1", some 10⟩) = mkJoinedRow m oa
        ∧ (oa = none →
            [(⟨"f1", some "c1", some 10⟩ : ARow)].filter
              (fun a => a.audit_filename == m.manifest_filename) = [])
        ∧ (∀ a, oa = some a →
            a ∈ [(⟨"f1", some "c1", some 10⟩ : ARow)] ∧ a.audit_filename = m.manifest_filename)
        ∧ ((mkJoinedRow ⟨"f1", some "c1", some 10⟩ (some ⟨"f1", some "c1", some 10⟩)).file_mismatch = 1
            ↔ oa = none)
        ∧ ((mkJoinedRow ⟨"f1", some "c1", some 10⟩ (some ⟨"f1", some "c1", some 10⟩)).linecount_mismatch = 1
            ↔ m.manifest_linecount.getD 0 ≠ (oa.bind (fun a => a.audit_linecount)).getD 0)
        ∧ ((mkJoinedRow ⟨"f1", some "c1", some 10⟩ (some ⟨"f1", some "c1", some 10⟩)).checksum_mismatch = 1
            ↔ ∃ mc ac, m.manifest_checksum = some mc
                ∧ oa.bind (fun a => a.audit_checksum) = some ac ∧ mc ≠ ac) :=
  ⟨by decide, join_decrypt_manifest_flags [⟨"f1", some "c1", some 10⟩]
    [⟨"f1", some "c1", some 10⟩] _ (by decide)⟩

/-! ## Helper lemmas for the file-name cleaning claims -/

/-- A list on which the predicate always holds is its own `takeWhile`. -/
theorem takeWhile_eq_self_of_forall {α : Type} (p : α → Bool) :
    ∀ l : List α, (∀ x ∈ l, p x = true) → l.takeWhile p = l := by
  intro l
  induction l with
  | nil => intro _; rfl
  | cons c cs ih =>
    intro h
    have hc : p c = true := h c (List.mem_cons_self c cs)
    simp [List.takeWhile_cons, hc, ih (fun x hx => h x (List.mem_cons_of_mem c hx))]

/-- `takeWhile` is idempotent. -/
theorem takeWhile_takeWhile_self {α : Type} (p : α → Bool) (l : List α) :
    (l.takeWhile p).takeWhile p = l.takeWhile p :=
  takeWhile_eq_self_of_forall p _ (fun _ hx => List.mem_takeWhile_imp hx)

/-- Appending one failing element does not change `takeWhile`. -/
theorem takeWhile_append_single_false {α : Type} (p : α → Bool) (y : α) (hy : p y = false) :
    ∀ xs : List α, (xs ++ [y]).takeWhile p = xs.takeWhile p := by
  intro xs
  induction xs with
  | nil => simp [List.takeWhile_cons, hy]
  | cons c cs ih =>
    cases hc : p c <;> simp [List.takeWhile_cons, hc, ih]

/-- If some element of the first part fails the predicate, `takeWhile` of an
append never reaches the second part. -/
theorem takeWhile_append_of_mem_false {α : Type} (p : α → Bool) :
    ∀ (xs ys : List α) (x : α), x ∈ xs → p x = false →
      (xs ++ ys).takeWhile p = xs.takeWhile p := by
  intro xs
  induction xs with
  | nil => intro ys x hx; exact absurd hx (List.not_mem_nil x)
  | cons c cs ih =>
    intro ys x hx hpx
    cases hc : p c with
    | false => simp [List.takeWhile_cons, hc]
    | true =>
      have hxcs : x ∈ cs := by
        rcases List.mem_cons.mp hx with h | h
        · subst h; rw [hc] at hpx; cases hpx
        · exact h
      simp [List.takeWhile_cons, hc, ih ys x hxcs hpx]

/-- `splitSlash` never returns the empty list of components. -/
theorem splitSlash_ne_nil : ∀ l : List Char, splitSlash l ≠ [] := by
  intro l
  cases l with
  | nil => simp [splitSlash]
  | cons c cs =>
    by_cases hc : c = '/'
    · simp [splitSlash, hc]
    · simp only [splitSlash, if_neg hc]
      cases splitSlash cs <;> simp

/-- On a slash-free list, `splitSlash` yields the single whole component. -/
theorem splitSlash_no_slash : ∀ l : List Char, '/' ∉ l → splitSlash l = [l] := by
  intro l
  induction l with
  | nil => intro _; rfl
  | cons c cs ih =>
    intro h
    have hc : c ≠ '/' := fun hc => h (hc ▸ List.mem_cons_self c cs)
    have hcs : '/' ∉ cs := fun hm => h (List.mem_cons_of_mem c hm)
    simp only [splitSlash, if_neg hc, ih hcs]

/-- When the list contains a slash, `splitSlash` has at least two
components. -/
theorem splitSlash_tail_ne_nil :
    ∀ (l : List Char) (h : List Char) (t : List (List Char)),
      '/' ∈ l → splitSlash l = h :: t → t ≠ [] := by
  intro l
  induction l with
  | nil => intro h t hm; exact absurd hm (List.not_mem_nil _)
  | cons c cs ih =>
    intro h t hm hsplit
    by_cases hc : c = '/'
    · rw [splitSlash, if_pos hc] at hsplit
      cases hsplit
      exact splitSlash_ne_nil cs
    · have hcs : '/' ∈ cs := by
        rcases List.mem_cons.mp hm with h' | h'
        · exact absurd h'.symm hc
        · exact h'
      rw [splitSlash, if_neg hc] at hsplit
      cases hcase : splitSlash cs with
      | nil => exact absurd hcase (splitSlash_ne_nil cs)
      | cons h' t' =>
        rw [hcase] at hsplit
        cases hsplit
        exact ih h' t hcs hcase

/-- The last `splitSlash` component is the suffix after the last slash. -/
theorem getLastD_splitSlash (l : List Char) :
    (splitSlash l).getLastD [] = (l.reverse.takeWhile (fun c => c ≠ '/')).reverse := by
  induction l with
  | nil => rfl
  | cons c cs ih =>
    by_cases hc : c = '/'
    · subst hc
      rw [splitSlash, if_pos rfl, List.getLastD_cons, ih]
      simp only [List.reverse_cons]
      rw [takeWhile_append_single_false (fun c : Char => decide (c ≠ '/')) '/'
        (by decide) cs.reverse]
    · rw [splitSlash, if_neg hc]
      cases hcase : splitSlash cs with
      | nil => exact absurd hcase (splitSlash_ne_nil cs)
      | cons h t =>
        cases t with
        | nil =>
          have hns : '/' ∉ cs := fun hmem => splitSlash_tail_ne_nil cs h [] hmem hcase rfl
          have hcs2 : splitSlash cs = [cs] := splitSlash_no_slash cs hns
          rw [hcs2] at hcase
          injection hcase with hh _
          subst hh
          rw [List.getLastD_cons, List.getLastD_nil]
          have hall : ∀ x ∈ (c :: cs).reverse, (fun c : Char => decide (c ≠ '/')) x = true := by
            intro x hx
            rcases List.mem_cons.mp (List.mem_reverse.mp hx) with h' | h'
            · subst h'; simpa using hc
            · have hx' : x ≠ '/' := by
                intro he
                rw [he] at h'
                exact hns h'
              simpa using hx'
          rw [takeWhile_eq_self_of_forall _ _ hall, List.reverse_reverse]
        | cons t₀ ts =>
          have hmem : '/' ∈ cs := by
            by_contra hns
            have h2 := splitSlash_no_slash cs hns
            rw [h2] at hcase
            injection hcase with _ h3
            cases h3
          have h₁ : ((c :: h) :: t₀ :: ts).getLastD [] = (splitSlash cs).getLastD [] := by
            rw [hcase, List.getLastD_cons, List.getLastD_cons, List.getLastD_cons,
              List.getLastD_cons]
          rw [h₁, ih]
          simp only [List.reverse_cons]
          rw [takeWhile_append_of_mem_false (fun c : Char => decide (c ≠ '/')) cs.reverse [c] '/'
            (List.mem_reverse.mpr hmem) (by decide)]

/-- When there is no dot, `takeWhile` keeps the whole list. -/
theorem findDot_none_takeWhile :
    ∀ l : List Char, findDot l = none → l.takeWhile (fun c => c ≠ '.') = l := by
  intro l
  induction l with
  | nil => intro _; rfl
  | cons c cs ih =>
    intro h
    by_cases hc : c = '.'
    · rw [findDot, if_pos hc] at h; cases h
    · rw [findDot, if_neg hc] at h
      cases hcase : findDot cs with
      | some j => rw [hcase] at h; cases h
      | none =>
        rw [List.takeWhile_cons_of_pos (by simpa using hc), ih hcase]

/-- The index returned by `findDot` turns `takeWhile` into `take`. -/
theorem findDot_some_takeWhile :
    ∀ (l : List Char) (i : Nat), findDot l = some i →
      l.takeWhile (fun c => c ≠ '.') = l.take i := by
  intro l
  induction l with
  | nil => intro i h; cases h
  | cons c cs ih =>
    intro i h
    by_cases hc : c = '.'
    · rw [findDot, if_pos hc] at h
      cases h
      simp [List.takeWhile_cons, hc]
    · rw [findDot, if_neg hc] at h
      cases hcase : findDot cs with
      | none => rw [hcase] at h; cases h
      | some j =>
        rw [hcase] at h
        cases h
        rw [List.takeWhile_cons_of_pos (by simpa using hc), List.take_succ_cons, ih j hcase]

/-- The code's cleaning function equals the amended spec formulation: last
slash component, truncated at the first dot only when that dot is not the
first character. -/
theorem clean_eq_amended (o : Option (List Char)) :
    clean_file_name o = clean_file_name_spec_amended o := by
  cases o with
  | none => rfl
  | some l =>
    cases l with
    | nil => rfl
    | cons c₀ cs₀ =>
      show (if (c₀ :: cs₀).length < 1 then "UNKNOWN".data
        else
          match findDot ((splitSlash (c₀ :: cs₀)).getLastD []) with
          | some i => if 0 < i then ((splitSlash (c₀ :: cs₀)).getLastD []).take i
                      else (splitSlash (c₀ :: cs₀)).getLastD []
          | none => (splitSlash (c₀ :: cs₀)).getLastD [])
        = clean_file_name_spec_amended (some (c₀ :: cs₀))
      rw [if_neg (by simp), clean_file_name_spec_amended]
      rw [if_neg (List.cons_ne_nil c₀ cs₀), getLastD_splitSlash]
      cases hcomp : ((c₀ :: cs₀).reverse.takeWhile (fun c => c ≠ '/')).reverse with
      | nil => rfl
      | cons c cs =>
        by_cases hc : c = '.'
        · subst hc
          rfl
        · rw [findDot, if_neg hc]
          cases hcase : findDot cs with
          | none =>
            show c :: cs = if c = '.' then c :: cs else c :: cs.takeWhile (fun x => x ≠ '.')
            rw [if_neg hc, findDot_none_takeWhile cs hcase]
          | some j =>
            show (if 0 < j + 1 then (c :: cs).take (j + 1) else c :: cs)
              = if c = '.' then c :: cs else c :: cs.takeWhile (fun x => x ≠ '.')
            rw [if_pos (Nat.succ_pos j), if_neg hc, List.take_succ_cons,
              findDot_some_takeWhile cs j hcase]

/-- Any member of a `takeWhile` is a member of the underlying list. -/
theorem mem_takeWhile_mem {α : Type} (p : α → Bool) :
    ∀ (l : List α) (x : α), x ∈ l.takeWhile p → x ∈ l := by
  intro l
  induction l with
  | nil => intro x hx; exact absurd hx (List.not_mem_nil x)
  | cons c cs ih =>
    intro x hx
    rw [List.takeWhile_cons] at hx
    by_cases hc : p c = true
    · rw [if_pos hc] at hx
      rcases List.mem_cons.mp hx with h | h
      · exact h ▸ List.mem_cons_self c cs
      · exact List.mem_cons_of_mem c (ih x h)
    · rw [if_neg hc] at hx
      exact absurd hx (List.not_mem_nil x)

/-- The cleaned value contains no slash. -/
theorem clean_no_slash (l : List Char) : '/' ∉ clean_file_name (some l) := by
  rw [clean_eq_amended, clean_file_name_spec_amended]
  have hcomp : ∀ x ∈ (l.reverse.takeWhile (fun c => c ≠ '/')).reverse, x ≠ '/' := by
    intro x hx
    have h2 := List.mem_takeWhile_imp (List.mem_reverse.mp hx)
    simpa using h2
  by_cases hl : l = []
  · rw [if_pos hl]
    decide
  · rw [if_neg hl]
    cases hcase : (l.reverse.takeWhile (fun c => c ≠ '/')).reverse with
    | nil =>
      show ('/' : Char) ∉ ([] : List Char)
      exact List.not_mem_nil _
    | cons c cs =>
      show ('/' : Char) ∉ (if c = '.' then c :: cs else c :: cs.takeWhile (fun x => x ≠ '.'))
      by_cases hc : c = '.'
      · rw [if_pos hc]
        intro hm
        rw [← hcase] at hm
        exact hcomp '/' hm rfl
      · rw [if_neg hc]
        intro hm
        rcases List.mem_cons.mp hm with h' | h'
        · have hcmem : c ∈ (l.reverse.takeWhile (fun c => c ≠ '/')).reverse := by
            rw [hcase]
            exact List.mem_cons_self c cs
          exact hcomp c hcmem h'.symm
        · have h2 : ('/' : Char) ∈ cs := mem_takeWhile_mem _ cs '/' h'
          have hmem2 : ('/' : Char) ∈ (l.reverse.takeWhile (fun c => c ≠ '/')).reverse := by
            rw [hcase]
            exact List.mem_cons_of_mem c h2
          exact hcomp '/' hmem2 rfl

/-- A slash-free cons whose tail is dot-free (unless it starts with a dot)
is a fixed point of the cleaning function. -/
theorem clean_fixed (c : Char) (cs : List Char) (hns : '/' ∉ c :: cs)
    (hdot : c ≠ '.' → '.' ∉ cs) : clean_file_name (some (c :: cs)) = c :: cs := by
  rw [clean_eq_amended, clean_file_name_spec_amended]
  rw [if_neg (List.cons_ne_nil c cs)]
  have hall : ∀ x ∈ (c :: cs).reverse, (fun x : Char => decide (x ≠ '/')) x = true := by
    intro x hx
    have hx2 : x ∈ c :: cs := List.mem_reverse.mp hx
    have hx3 : x ≠ '/' := by
      intro he
      rw [he] at hx2
      exact hns hx2
    simpa using hx3
  have hcomp : ((c :: cs).reverse.takeWhile (fun x => x ≠ '/')).reverse = c :: cs := by
    rw [takeWhile_eq_self_of_forall _ _ hall, List.reverse_reverse]
  rw [hcomp]
  show (if c = '.' then c :: cs else c :: cs.takeWhile (fun x => x ≠ '.')) = c :: cs
  by_cases hc : c = '.'
  · rw [if_pos hc]
  · rw [if_neg hc]
    have hcs : cs.takeWhile (fun x => x ≠ '.') = cs := by
      apply takeWhile_eq_self_of_forall
      intro x hx
      have hx2 : x ≠ '.' := by
        intro he
        rw [he] at hx
        exact hdot hc hx
      simpa using hx2
    rw [hcs]

/-- When the cleaned value does not start with a dot, its tail is
dot-free. -/
theorem clean_tail_no_dot (l : List Char) (c : Char) (cs : List Char)
    (hr : clean_file_name (some l) = c :: cs) (hc : c ≠ '.') : '.' ∉ cs := by
  rw [clean_eq_amended, clean_file_name_spec_amended] at hr
  by_cases hl : l = []
  · rw [if_pos hl] at hr
    injection hr with h1 h2
    subst h2
    decide
  · rw [if_neg hl] at hr
    cases hcase : ((l.reverse.takeWhile (fun x => x ≠ '/')).reverse) with
    | nil =>
      rw [hcase] at hr
      exact List.noConfusion (hr : ([] : List Char) = c :: cs)
    | cons c' cs' =>
      rw [hcase] at hr
      have hr2 : (if c' = '.' then c' :: cs'
          else c' :: cs'.takeWhile (fun y => y ≠ '.')) = c :: cs := hr
      by_cases hc' : c' = '.'
      · rw [if_pos hc'] at hr2
        injection hr2 with h1 _
        exact absurd (h1 ▸ hc') hc
      · rw [if_neg hc'] at hr2
        injection hr2 with _ h2
        intro hm
        rw [← h2] at hm
        have := List.mem_takeWhile_imp hm
        simp at this

/-- Counterexample for C6 as stated: the input `'a/'` cleans to the empty
string (its last path component is empty and `len('') < 1` is only checked
on the original input), and re-cleaning the empty string yields the sentinel
`'UNKNOWN'`, so `clean (clean 'a/') ≠ clean 'a/'`. -/
theorem clean_file_name_not_idempotent_cex :
    clean_file_name (some ('a' :: '/' :: [])) = []
    ∧ clean_file_name (some (clean_file_name (some ('a' :: '/' :: [])))) = "UNKNOWN".data
    ∧ clean_file_name (some (clean_file_name (some ('a' :: '/' :: []))))
        ≠ clean_file_name (some ('a' :: '/' :: [])) := by
  decide

/-- Claim C6 (amended): `clean_file_name` maps `None` and the empty string to
the sentinel `'UNKNOWN'`, and is idempotent on every input whose cleaned
value is non-empty; a non-empty input ending in `'/'` cleans to the empty
string, which re-cleans to `'UNKNOWN'`. -/
theorem clean_file_name_idempotent_on_nonempty :
    clean_file_name none = "UNKNOWN".data
    ∧ clean_file_name (some []) = "UNKNOWN".data
    ∧ ∀ l : List Char, clean_file_name (some l) ≠ [] →
        clean_file_name (some (clean_file_name (some l))) = clean_file_name (some l) := by
  refine ⟨rfl, rfl, ?_⟩
  intro l hne
  cases hr : clean_file_name (some l) with
  | nil => exact absurd hr hne
  | cons c cs =>
    have hns : '/' ∉ c :: cs := by
      rw [← hr]
      exact clean_no_slash l
    exact clean_fixed c cs hns (fun hc => clean_tail_no_dot l c cs hr hc)

/-- Witness for C6 at the input `'a/b.c'`, whose cleaned value `'b'` is
non-empty. -/
theorem clean_file_name_idempotent_on_nonempty_witness :
    (clean_file_name (some ('a' :: '/' :: 'b' :: '.' :: 'c' :: [])) ≠ [])
    ∧ clean_file_name (some (clean_file_name (some ('a' :: '/' :: 'b' :: '.' :: 'c' :: []))))
        = clean_file_name (some ('a' :: '/' :: 'b' :: '.' :: 'c' :: [])) :=
  ⟨by decide, clean_file_name_idempotent_on_nonempty.2.2 _ (by decide)⟩

/-- Counterexample for C7 as stated: on `'a/.b'` the code keeps `'.b'`
(the `dotidx > 0` guard skips a leading dot) while the spec's rule
(truncate at the first dot of the component) yields the empty string. -/
theorem clean_file_name_spec_rule_cex :
    clean_file_name (some ('a' :: '/' :: '.' :: 'b' :: [])) = '.' :: 'b' :: []
    ∧ clean_file_name_spec (some ('a' :: '/' :: '.' :: 'b' :: [])) = []
    ∧ clean_file_name (some ('a' :: '/' :: '.' :: 'b' :: []))
        ≠ clean_file_name_spec (some ('a' :: '/' :: '.' :: 'b' :: [])) := by
  decide

/-- Claim C7 (amended): `clean_file_name` implements the spec's cleaning rule
amended at the leading-dot case — substring after the last `'/'`, truncated
at the first `'.'` only when that dot is not the component's first character,
with empty or missing input mapping to `'UNKNOWN'`. -/
theorem clean_file_name_matches_amended_rule :
    ∀ o : Option (List Char), clean_file_name o = clean_file_name_spec_amended o :=
  clean_eq_amended

/-! ## Helper lemmas for the aggregate-filter consistency claim -/

/-- When a manifest filename occurs exactly once on the audit side, the join
filter selects exactly the matched audit row. -/
theorem filter_eq_single_match (dfA : List ARow) (m : MRow)
    (hcount : (dfA.map (fun a => a.audit_filename)).count m.manifest_filename = 1) :
    dfA.filter (fun a => a.audit_filename == m.manifest_filename) = [audit_match dfA m]
    ∧ (audit_match dfA m).audit_filename = m.manifest_filename := by
  rw [List.count_eq_countP, List.countP_map, List.countP_eq_length_filter] at hcount
  have hc2 : dfA.filter ((fun x => x == m.manifest_filename) ∘ fun a => a.audit_filename)
      = dfA.filter (fun a => a.audit_filename == m.manifest_filename) := rfl
  rw [hc2] at hcount
  obtain ⟨a, ha⟩ := List.length_eq_one.mp hcount
  have hma : audit_match dfA m = a := by
    rw [audit_match, ha]
    rfl
  constructor
  · rw [ha, hma]
  · have hamem : a ∈ dfA.filter (fun a => a.audit_filename == m.manifest_filename) := by
      rw [ha]
      exact List.mem_singleton.mpr rfl
    have hpred := List.of_mem_filter hamem
    rw [hma]
    exact eq_of_beq hpred

/-- Under duplicate-free equal filename multisets, every manifest filename
occurs exactly once on the audit side. -/
theorem count_one_of_perm_nodup (dfM : List MRow) (dfA : List ARow)
    (hA : (dfA.map (fun a => a.audit_filename)).Nodup)
    (hperm : (dfM.map (fun m => m.manifest_filename)).Perm (dfA.map (fun a => a.audit_filename)))
    (m : MRow) (hm : m ∈ dfM) :
    (dfA.map (fun a => a.audit_filename)).count m.manifest_filename = 1 := by
  have hmemM : m.manifest_filename ∈ dfM.map (fun m => m.manifest_filename) :=
    List.mem_map_of_mem _ hm
  have hmemA : m.manifest_filename ∈ dfA.map (fun a => a.audit_filename) :=
    hperm.mem_iff.mp hmemM
  have h1 : 0 < (dfA.map (fun a => a.audit_filename)).count m.manifest_filename :=
    List.count_pos_iff.mpr hmemA
  have h2 := List.nodup_iff_count_le_one.mp hA m.manifest_filename
  omega

/-- When every manifest row has exactly one audit match, the left-outer join
is the pointwise pairing with the matched row. -/
theorem join_rows_eq_map (dfM : List MRow) (dfA : List ARow)
    (hfil : ∀ m ∈ dfM, dfA.filter (fun a => a.audit_filename == m.manifest_filename)
      = [audit_match dfA m]) :
    join_decrypt_manifest_rows dfM dfA
      = dfM.map (fun m => mkJoinedRow m (some (audit_match dfA m))) := by
  induction dfM with
  | nil => rfl
  | cons m rest ih =>
    have ih2 := ih (fun m' hm' => hfil m' (List.mem_cons_of_mem m hm'))
    rw [join_decrypt_manifest_rows, List.flatMap_cons, hfil m (List.mem_cons_self m rest)]
    show mkJoinedRow m (some (audit_match dfA m)) :: join_decrypt_manifest_rows rest dfA
      = (m :: rest).map (fun m => mkJoinedRow m (some (audit_match dfA m)))
    rw [List.map_cons, ih2]

/-- Under the perfect-matching hypotheses the matched audit rows are a
permutation of the audit table. -/
theorem map_audit_match_perm (dfM : List MRow) (dfA : List ARow)
    (hM : (dfM.map (fun m => m.manifest_filename)).Nodup)
    (hA : (dfA.map (fun a => a.audit_filename)).Nodup)
    (hperm : (dfM.map (fun m => m.manifest_filename)).Perm (dfA.map (fun a => a.audit_filename))) :
    (dfM.map (audit_match dfA)).Perm dfA := by
  have hfil : ∀ m ∈ dfM,
      dfA.filter (fun a => a.audit_filename == m.manifest_filename) = [audit_match dfA m]
      ∧ (audit_match dfA m).audit_filename = m.manifest_filename :=
    fun m hm => filter_eq_single_match dfA m (count_one_of_perm_nodup dfM dfA hA hperm m hm)
  have hsub1 : dfM.map (audit_match dfA) ⊆ dfA := by
    intro x hx
    obtain ⟨m, hm, hxm⟩ := List.mem_map.mp hx
    have hmem : audit_match dfA m
        ∈ dfA.filter (fun a => a.audit_filename == m.manifest_filename) := by
      rw [(hfil m hm).1]
      exact List.mem_singleton.mpr rfl
    exact hxm ▸ (List.mem_filter.mp hmem).1
  have hsub2 : dfA ⊆ dfM.map (audit_match dfA) := by
    intro a haA
    have hfa : a.audit_filename ∈ dfA.map (fun a => a.audit_filename) :=
      List.mem_map_of_mem _ haA
    have hfm : a.audit_filename ∈ dfM.map (fun m => m.manifest_filename) :=
      hperm.mem_iff.mpr hfa
    obtain ⟨m, hm, hfm2⟩ := List.mem_map.mp hfm
    have hmem_fil : a ∈ dfA.filter (fun x => x.audit_filename == m.manifest_filename) :=
      List.mem_filter.mpr ⟨haA, by simp [hfm2]⟩
    rw [(hfil m hm).1] at hmem_fil
    rw [List.mem_singleton.mp hmem_fil]
    exact List.mem_map_of_mem _ hm
  have hAnodup : dfA.Nodup := List.Nodup.of_map (fun a => a.audit_filename) hA
  have hfnames : (dfM.map (audit_match dfA)).map (fun a => a.audit_filename)
      = dfM.map (fun m => m.manifest_filename) := by
    rw [List.map_map]
    exact List.map_congr_left (fun m hm => (hfil m hm).2)
  have hMapNodup : (dfM.map (audit_match dfA)).Nodup := by
    apply List.Nodup.of_map (fun a => a.audit_filename)
    rw [hfnames]
    exact hM
  exact (hMapNodup.subperm hsub1).antisymm (hAnodup.subperm hsub2)

/-- Counterexample for C4 as stated: swapping the linecounts of two files
keeps the two sums equal (30 = 30) while two joined rows carry
`linecount_mismatch = 1`, so equal aggregates do NOT imply an empty filter
selection — the claimed equivalence fails. -/
theorem decrypt_metric2_aggregate_filter_inconsistent_cex :
    sum_manifest_linecount [⟨"f1", some "x", some 10⟩, ⟨"f2", some "y", some 20⟩]
      = sum_audit_linecount [⟨"f1", some "x", some 20⟩, ⟨"f2", some "y", some 10⟩]
    ∧ decrypt_metric2_error_rows [⟨"f1", some "x", some 10⟩, ⟨"f2", some "y", some 20⟩]
        [⟨"f1", some "x", some 20⟩, ⟨"f2", some "y", some 10⟩] ≠ [] := by
  refine ⟨by decide, ?_⟩
  intro h
  rw [decrypt_metric2_error_rows] at h
  have hperm2 : ((join_decrypt_manifest [⟨"f1", some "x", some 10⟩, ⟨"f2", some "y", some 20⟩]
        [⟨"f1", some "x", some 20⟩, ⟨"f2", some "y", some 10⟩]).filter
          decryptMeta2.error_df_filter).Perm
      ((join_decrypt_manifest_rows [⟨"f1", some "x", some 10⟩, ⟨"f2", some "y", some 20⟩]
        [⟨"f1", some "x", some 20⟩, ⟨"f2", some "y", some 10⟩]).filter
          decryptMeta2.error_df_filter) := by
    rw [join_decrypt_manifest]
    exact List.Perm.filter _ (List.perm_insertionSort _ _)
  rw [h] at hperm2
  have h2 := hperm2.symm.eq_nil
  revert h2
  decide

/-- Claim C4 (amended): for decrypt metric 2, when the manifest and audit
filename lists are duplicate-free and equal as multisets (the join is a
perfect matching), a difference between the summed manifest linecounts and
the summed audit linecounts implies the registered `linecount_mismatch`
filter selects a non-empty subset of the joined rows.  The converse (and the
unrestricted equivalence) fails: offsetting mismatches cancel in the sums. -/
theorem decrypt_metric2_sum_mismatch_implies_error_rows
    (dfM : List MRow) (dfA : List ARow)
    (hM : (dfM.map (fun m => m.manifest_filename)).Nodup)
    (hA : (dfA.map (fun a => a.audit_filename)).Nodup)
    (hperm : (dfM.map (fun m => m.manifest_filename)).Perm (dfA.map (fun a => a.audit_filename)))
    (hsum : sum_manifest_linecount dfM ≠ sum_audit_linecount dfA) :
    decrypt_metric2_error_rows dfM dfA ≠ [] := by
  intro hempty
  apply hsum
  have hfil : ∀ m ∈ dfM,
      dfA.filter (fun a => a.audit_filename == m.manifest_filename) = [audit_match dfA m] :=
    fun m hm => (filter_eq_single_match dfA m (count_one_of_perm_nodup dfM dfA hA hperm m hm)).1
  have hrows : join_decrypt_manifest_rows dfM dfA
      = dfM.map (fun m => mkJoinedRow m (some (audit_match dfA m))) :=
    join_rows_eq_map dfM dfA hfil
  rw [decrypt_metric2_error_rows] at hempty
  have hperm2 : ((join_decrypt_manifest dfM dfA).filter decryptMeta2.error_df_filter).Perm
      ((join_decrypt_manifest_rows dfM dfA).filter decryptMeta2.error_df_filter) := by
    rw [join_decrypt_manifest]
    exact List.Perm.filter _ (List.perm_insertionSort _ _)
  rw [hempty] at hperm2
  have hemptyrows : (join_decrypt_manifest_rows dfM dfA).filter decryptMeta2.error_df_filter
      = [] := hperm2.symm.eq_nil
  have hpt : ∀ m ∈ dfM,
      m.manifest_linecount.getD 0 = (audit_match dfA m).audit_linecount.getD 0 := by
    intro m hm
    by_contra hne
    have hrowmem : mkJoinedRow m (some (audit_match dfA m))
        ∈ join_decrypt_manifest_rows dfM dfA := by
      rw [hrows]
      exact List.mem_map_of_mem _ hm
    have hflag : (mkJoinedRow m (some (audit_match dfA m))).linecount_mismatch = 1 := by
      show (if m.manifest_linecount.getD 0
          ≠ ((some (audit_match dfA m)).bind (fun a => a.audit_linecount)).getD 0
          then (1 : Int) else 0) = 1
      exact if_pos hne
    have hpred : decryptMeta2.error_df_filter (mkJoinedRow m (some (audit_match dfA m)))
        = true := by
      show ((mkJoinedRow m (some (audit_match dfA m))).linecount_mismatch == 1) = true
      rw [hflag]
      rfl
    have hmem2 : mkJoinedRow m (some (audit_match dfA m))
        ∈ (join_decrypt_manifest_rows dfM dfA).filter decryptMeta2.error_df_filter :=
      List.mem_filter.mpr ⟨hrowmem, hpred⟩
    rw [hemptyrows] at hmem2
    exact absurd hmem2 (List.not_mem_nil _)
  rw [sum_manifest_linecount, sum_audit_linecount]
  rw [List.map_congr_left hpt]
  have hpm : (dfM.map (audit_match dfA)).Perm dfA := map_audit_match_perm dfM dfA hM hA hperm
  have h2 : ((dfM.map (audit_match dfA)).map (fun a => a.audit_linecount.getD 0)).Perm
      (dfA.map (fun a => a.audit_linecount.getD 0)) := hpm.map _
  have h3 : dfM.map (fun m => (audit_match dfA m).audit_linecount.getD 0)
      = (dfM.map (audit_match dfA)).map (fun a => a.audit_linecount.getD 0) := by
    rw [List.map_map]
    rfl
  rw [h3]
  exact h2.sum_eq

/-- Witness for C4 at a perfectly matched single file with differing
linecounts. -/
theorem decrypt_metric2_sum_mismatch_implies_error_rows_witness :
    (([⟨"f1", some "x", some 10⟩] : List MRow).map (fun m => m.manifest_filename)).Nodup
    ∧ (([⟨"f1", some "x", some 9⟩] : List ARow).map (fun a => a.audit_filename)).Nodup
    ∧ (([⟨"f1", some "x", some 10⟩] : List MRow).map (fun m => m.manifest_filename)).Perm
        (([⟨"f1", some "x", some 9⟩] : List ARow).map (fun a => a.audit_filename))
    ∧ sum_manifest_linecount [⟨"f1", some "x", some 10⟩]
        ≠ sum_audit_linecount [⟨"f1", some "x", some 9⟩]
    ∧ decrypt_metric2_error_rows [⟨"f1", some "x", some 10⟩] [⟨"f1", some "x", some 9⟩] ≠ [] :=
  ⟨by decide, by decide, by decide, by decide,
    decrypt_metric2_sum_mismatch_implies_error_rows [⟨"f1", some "x", some 10⟩]
      [⟨"f1", some "x", some 9⟩] (by decide) (by decide) (by decide) (by decide)⟩

/-! ## Theorems for the save-failure propagation claim -/

/-- Counterexample for C8 as stated: with a persistence collaborator that
raises, metric 1 (5 = 5) evaluates fine on its own, but the step evaluation
aborts at metric 2 (3 ≠ 4 triggers the save): no step record is built — the
already-computed metric-1 result is discarded with the partial
`metric_output` — and the run yields a fault instead of a final report, so
nothing "materializes in the QC output". -/
theorem save_failure_discards_step_cex :
    (qc_individual_metric_exc failing_save decryptMeta1 "s3://qc" 1 1 5 5
        ([] : List DJoinRow)).isOk = true
    ∧ qc_individual_step_exc failing_save "s3://qc" 1 "Decrypt" "2026-01-01"
        [⟨1, decryptMeta1, 5, 5⟩, ⟨2, decryptMeta2, 3, 4⟩] ([] : List DJoinRow)
        = Except.error "persist failed"
    ∧ run_qc_exc [] [Except.error "persist failed"]
        = ([], Except.error "persist failed") :=
  ⟨rfl, rfl, rfl⟩

/-- Claim C8 (amended): a raise while persisting a failed metric's error rows
is not caught — it aborts the metric loop, so the step whose metric failed
produces no record (its earlier passing metrics' results are discarded with
it) and the run produces no final report; step records already appended to
the global `COMPLETED_QC_STEP_LIST` by fully completed earlier steps remain
there (and only there). -/
theorem save_failure_aborts_step_and_run {α : Type}
    (save : List (α × String) → Except String String) (s3_base : String)
    (step_number : Nat) (step_name execution_date : String)
    (df : List α) (pre : List (MetricCall α)) (mc : MetricCall α)
    (post : List (MetricCall α)) (e : String)
    (hpre : ∀ p ∈ pre, p.left_data = p.right_data)
    (hfail : mc.left_data ≠ mc.right_data)
    (hsave : save (update_error_dataframe mc.meta df) = Except.error e) :
    qc_individual_step_exc save s3_base step_number step_name execution_date
      (pre ++ mc :: post) df = Except.error e
    ∧ ∀ (g : List StepOutput) (r₁ : StepOutput) (rest : List (Except String StepOutput)),
        run_qc_exc g (Except.ok r₁ :: Except.error e :: rest) = (g ++ [r₁], Except.error e) := by
  have hm : qc_metrics_exc save s3_base step_number df (pre ++ mc :: post)
      = Except.error e := by
    induction pre with
    | nil =>
      have hmetric : qc_individual_metric_exc save mc.meta s3_base step_number
          mc.metric_number mc.left_data mc.right_data df = Except.error e := by
        have h2 : (qc_individual_metric mc.meta s3_base step_number mc.metric_number
            mc.left_data mc.right_data df).2 = some (update_error_dataframe mc.meta df) := by
          simp [qc_individual_metric, hfail]
        simp [qc_individual_metric_exc, h2, hsave]
      rw [List.nil_append]
      simp [qc_metrics_exc, hmetric]
    | cons p ps ih =>
      have hp : p.left_data = p.right_data := hpre p (List.mem_cons_self p ps)
      have hpass : qc_individual_metric_exc save p.meta s3_base step_number
          p.metric_number p.left_data p.right_data df
          = Except.ok (qc_individual_metric p.meta s3_base step_number
              p.metric_number p.left_data p.right_data df).1 := by
        have h2 : (qc_individual_metric p.meta s3_base step_number p.metric_number
            p.left_data p.right_data df).2 = none := by
          simp [qc_individual_metric, hp]
        simp [qc_individual_metric_exc, h2]
      have ih2 := ih (fun q hq => hpre q (List.mem_cons_of_mem p hq))
      rw [List.cons_append]
      simp [qc_metrics_exc, hpass, ih2]
  constructor
  · simp [qc_individual_step_exc, hm]
  · intro g r₁ rest
    simp [run_qc_exc]

/-- Witness for C8: the decrypt registry with a passing metric 1, a failing
metric 2 and a raising persistence collaborator. -/
theorem save_failure_aborts_step_and_run_witness :
    (∀ p ∈ ([⟨1, decryptMeta1, 5, 5⟩] : List (MetricCall DJoinRow)),
      p.left_data = p.right_data)
    ∧ (⟨2, decryptMeta2, 3, 4⟩ : MetricCall DJoinRow).left_data
        ≠ (⟨2, decryptMeta2, 3, 4⟩ : MetricCall DJoinRow).right_data
    ∧ failing_save (update_error_dataframe
        (⟨2, decryptMeta2, 3, 4⟩ : MetricCall DJoinRow).meta ([] : List DJoinRow))
        = Except.error "persist failed"
    ∧ (qc_individual_step_exc failing_save "s3://qc" 1 "Decrypt" "2026-01-01"
        (([⟨1, decryptMeta1, 5, 5⟩] : List (MetricCall DJoinRow))
          ++ (⟨2, decryptMeta2, 3, 4⟩ : MetricCall DJoinRow) :: []) ([] : List DJoinRow)
        = Except.error "persist failed"
      ∧ ∀ (g : List StepOutput) (r₁ : StepOutput) (rest : List (Except String StepOutput)),
          run_qc_exc g (Except.ok r₁ :: Except.error "persist failed" :: rest)
            = (g ++ [r₁], Except.error "persist failed")) :=
  ⟨by decide, by decide, rfl,
    save_failure_aborts_step_and_run failing_save "s3://qc" 1 "Decrypt" "2026-01-01"
      [] [⟨1, decryptMeta1, 5, 5⟩] ⟨2, decryptMeta2, 3, 4⟩ [] "persist failed"
      (by decide) (by decide) rfl⟩

end AmiQcAlliant
